import Mathlib

set_option maxRecDepth 8000

/- Shallow embedding of the extraction-result formatter (`json_formatter.py`,
class `JSONFormatter`): `_format_value`, `_create_summary`,
`_extract_key_metrics`, `_validate_data_consistency` and
`create_comparison_report`.

Modelling conventions:
* Python floats are modelled by `PyFloat`: finite magnitudes as exact
  rationals (`ℚ`), plus the observable IEEE-754 double corner cases of
  `float(str)` on plain decimals — signed zero (magnitudes at or below
  `2 ^ (-1075)` round to a zero carrying the literal's sign) and overflow
  (magnitudes at or above `2 ^ 1024 - 2 ^ 970` round to a signed infinity,
  rendered `inf` by fixed-point formatting).
* In `numeric_value` (an exact-rational view) an infinite float is stored as
  the signed overflow bound: it compares against every finite modelled value
  and against other infinities exactly as `inf` does in the pipeline's
  comparisons (equality, ordering, the validator's range thresholds).
* Python dicts are association lists in insertion order with unique keys;
  `None`-able values are `Option`.
* Fixed-point float formatting (`:,.2f`, `:.1f`) is modelled as round-half-even
  of the exact rational at the requested number of decimals.
* Recursions are fuel-structured where needed so that every definition
  evaluates by kernel reduction on concrete inputs. -/

/-- Decimal digit characters of a natural number, most significant first
(`"0"` for zero). Fuel-structured; `natDigits` supplies sufficient fuel. -/
def natDigitsFuel : Nat → Nat → List Char
  | 0, _ => []
  | fuel + 1, n =>
    if n < 10 then [Nat.digitChar n]
    else natDigitsFuel fuel (n / 10) ++ [Nat.digitChar (n % 10)]

/-- Decimal rendering of a natural number as digit characters. -/
def natDigits (n : Nat) : List Char := natDigitsFuel (n + 1) n

/-- Comma grouping on a reversed digit list: after every three characters
insert a comma, provided further characters follow. Fuel-structured. -/
def groupFuel : Nat → List Char → List Char
  | 0, l => l
  | fuel + 1, d1 :: d2 :: d3 :: r :: rest => d1 :: d2 :: d3 :: ',' :: groupFuel fuel (r :: rest)
  | _ + 1, l => l

/-- Insert thousands separators into a digit list (most significant first),
as Python's `,` format flag does. -/
def groupComma (ds : List Char) : List Char := (groupFuel ds.length ds.reverse).reverse

/-- Round-half-even of the fraction `a / b` (for `b > 0`), on integers. This
is the rounding Python's fixed-point formatting performs, applied here to the
exact rational value. -/
def rhe (a b : ℤ) : ℤ :=
  if 2 * (a % b) < b then a / b
  else if b < 2 * (a % b) then a / b + 1
  else if a / b % 2 = 0 then a / b else a / b + 1

/-- Character data of Python `f"{x:,.2f}"` for a non-negative rational: the
value rounded half-even to two decimals, with thousands separators. Works on
`x.num` / `x.den` directly so that it evaluates by kernel reduction. -/
def fixed2Data (x : ℚ) : List Char :=
  groupComma (natDigits ((rhe (x.num * 100) (x.den : ℤ)).toNat / 100)) ++
    '.' :: [Nat.digitChar ((rhe (x.num * 100) (x.den : ℤ)).toNat % 100 / 10),
            Nat.digitChar ((rhe (x.num * 100) (x.den : ℤ)).toNat % 10)]

/-- Python `f"{x:,.2f}"` including the sign. -/
def commaFixed2 (x : ℚ) : String :=
  if x < 0 then String.mk ('-' :: fixed2Data (-x)) else String.mk (fixed2Data x)

/-- The currency display string built by `_format_value`:
`f"${v:,.2f}"` when `v >= 0`, else `f"-${abs(v):,.2f}"`. -/
def formatCurrency (q : ℚ) : String :=
  if 0 ≤ q then "$" ++ commaFixed2 q else "-$" ++ commaFixed2 (-q)

/-- Character data of Python `f"{x:.1f}"` for a non-negative rational
(no thousands separators, exactly one decimal digit). -/
def posFixed1 (x : ℚ) : List Char :=
  natDigits ((rhe (x.num * 10) (x.den : ℤ)).toNat / 10) ++
    '.' :: [Nat.digitChar ((rhe (x.num * 10) (x.den : ℤ)).toNat % 10)]

/-- Python `f"{x:.1f}"` including the sign. -/
def fixed1Data (x : ℚ) : List Char :=
  if x < 0 then '-' :: posFixed1 (-x) else posFixed1 x

/-- Python `str.replace(pat, repl)`: replace every non-overlapping occurrence,
scanning left to right. Fuel-structured on the input length. -/
def replaceFuel (pat repl : List Char) : Nat → List Char → List Char
  | _, [] => []
  | 0, l => l
  | fuel + 1, c :: rest =>
    if !pat.isEmpty && pat.isPrefixOf (c :: rest) then
      repl ++ replaceFuel pat repl fuel (List.drop pat.length (c :: rest))
    else
      c :: replaceFuel pat repl fuel rest

/-- Python `s.replace(pat, repl)` on strings. -/
def replaceAll (s pat repl : String) : String :=
  String.mk (replaceFuel pat.data repl.data s.data.length s.data)

/-- Python `str.strip()`: drop whitespace from both ends. -/
def trimData (l : List Char) : List Char :=
  ((l.dropWhile Char.isWhitespace).reverse.dropWhile Char.isWhitespace).reverse

/-- The cleaning step of `_format_value`:
`value.replace("$","").replace(",","").replace("USD","").replace("US","").strip()`. -/
def cleanValue (v : String) : String :=
  String.mk (trimData (replaceAll (replaceAll (replaceAll (replaceAll v "$" "") "," "") "USD" "") "US" "").data)

/-- Numeric value of a list of decimal digit characters. -/
def digitsToNat (l : List Char) : Nat := l.foldl (fun a c => a * 10 + (c.toNat - 48)) 0

/-- Parse an unsigned decimal literal: `digits+`, `digits+ '.' digits*` or
`'.' digits+`, as Python's `float` accepts for plain decimal notation. -/
def parseUnsigned (l : List Char) : Option ℚ :=
  match l.dropWhile Char.isDigit with
  | [] => if (l.takeWhile Char.isDigit).isEmpty then none else some (mkRat (digitsToNat (l.takeWhile Char.isDigit)) 1)
  | '.' :: fp =>
    if fp.all Char.isDigit && !((l.takeWhile Char.isDigit).isEmpty && fp.isEmpty) then
      some (mkRat ((digitsToNat (l.takeWhile Char.isDigit) : ℤ) * (10 : ℤ) ^ fp.length + (digitsToNat fp : ℤ))
                  ((10 : ℕ) ^ fp.length))
    else none
  | _ => none

/-- The result of Python `float(str)` on a plain decimal literal: a finite
value (exact-rational convention, positive zero included), a negative zero,
or a signed infinity from overflow. -/
inductive PyFloat where
  | finite (q : ℚ)
  | negZero
  | posInf
  | negInf
deriving DecidableEq

/-- The magnitude at or above which a decimal literal rounds (half-even) to
infinity: the midpoint between the largest double `2 ^ 1024 - 2 ^ 971` and
`2 ^ 1024`, which itself rounds to the even neighbour `2 ^ 1024`. -/
def overflowBound : ℚ := mkRat ((Nat.pow 2 1024 - Nat.pow 2 970 : ℕ) : ℤ) 1

/-- The magnitude at or below which a positive decimal literal rounds
(half-even) to zero: half the smallest subnormal double `2 ^ (-1074)`; the
midpoint itself rounds to the even neighbour `0`. -/
def underflowBound : ℚ := mkRat 1 (Nat.pow 2 1075)

/-- Classify the exact magnitude `m ≥ 0` of a decimal literal with sign
`neg` as the double Python's `float` produces: overflow to a signed
infinity, underflow to a (signed) zero, otherwise finite. -/
def classifyFloat (neg : Bool) (m : ℚ) : PyFloat :=
  if overflowBound ≤ m then (if neg then PyFloat.negInf else PyFloat.posInf)
  else if m ≤ underflowBound then (if neg then PyFloat.negZero else PyFloat.finite 0)
  else PyFloat.finite (if neg then -m else m)

/-- Python `float(str)` on an optionally signed plain decimal literal
(scientific notation, `inf`/`nan` literals and digit underscores are outside
the model). -/
def parsePyFloat (s : String) : Option PyFloat :=
  match s.data with
  | '+' :: rest => Option.map (classifyFloat false) (parseUnsigned rest)
  | '-' :: rest => Option.map (classifyFloat true) (parseUnsigned rest)
  | _ => Option.map (classifyFloat false) (parseUnsigned s.data)

/-- The exact-rational view of a parsed float stored in `numeric_value`:
negative zero is the rational zero (`-0.0 == 0.0` in every comparison the
pipeline performs), and a signed infinity is the signed overflow bound,
which is strictly beyond every finite classified value. -/
def floatNum : PyFloat → ℚ
  | PyFloat.finite q => q
  | PyFloat.negZero => 0
  | PyFloat.posInf => overflowBound
  | PyFloat.negInf => -overflowBound

/-- The currency display string of line 70 applied to the parsed float:
`-0.0 >= 0` is true in Python, so a negative zero renders `"$-0.00"`; the
infinities render `"$inf"` and `"-$inf"`. -/
def formatCurrencyF : PyFloat → String
  | PyFloat.finite q => formatCurrency q
  | PyFloat.negZero => "$-0.00"
  | PyFloat.posInf => "$inf"
  | PyFloat.negInf => "-$inf"

/-- The per-attribute record produced by `_format_value`. -/
structure NormalizedValue where
  raw_value : Option String
  formatted_value : Option String
  numeric_value : Option ℚ
  currency : Option String
  status : String
deriving DecidableEq

/-- `JSONFormatter._format_value`: normalize one raw extracted value. -/
def formatValue : Option String → NormalizedValue
  | none =>
    { raw_value := none, formatted_value := none, numeric_value := none,
      currency := none, status := "not_found" }
  | some v =>
    if v = "" ∨ v = "NOT_FOUND" ∨ v = "ERROR" then
      { raw_value := some v, formatted_value := none, numeric_value := none,
        currency := none, status := "not_found" }
    else
      match parsePyFloat (cleanValue v) with
      | some f =>
        { raw_value := some v, formatted_value := some (formatCurrencyF f),
          numeric_value := some (floatNum f), currency := some "USD", status := "extracted" }
      | none =>
        { raw_value := some v, formatted_value := some (cleanValue v),
          numeric_value := none, currency := none, status := "extracted_non_numeric" }

/-- Anchored matcher for the regular expression `-?\$[0-9,]+\.[0-9]{2}`:
digit-or-comma test. -/
def isDigitComma (c : Char) : Bool := c.isDigit || c == ','

/-- Matcher continuation: more digits/commas, then `.` and exactly two digits. -/
def tailPat : List Char → Bool
  | [] => false
  | c :: rest =>
    if c = '.' then
      match rest with
      | [a, b] => a.isDigit && b.isDigit
      | _ => false
    else isDigitComma c && tailPat rest

/-- Matcher for `[0-9,]+\.[0-9]{2}` (at least one digit/comma, then a dot and
exactly two digits, then end of string). -/
def bodyPat : List Char → Bool
  | [] => false
  | c :: rest => isDigitComma c && tailPat rest

/-- Matcher for `\$[0-9,]+\.[0-9]{2}`. -/
def dollarPat : List Char → Bool
  | '$' :: rest => bodyPat rest
  | _ => false

/-- Anchored matcher for `-?\$[0-9,]+\.[0-9]{2}`. -/
def matchesMoneyPattern (s : String) : Bool :=
  match s.data with
  | [] => false
  | c :: rest => if c = '-' then dollarPat rest else dollarPat (c :: rest)

/-- Matcher continuation for the rate pattern: more digits, then `.`, one
digit and a percent sign. -/
def rateTail : List Char → Bool
  | [] => false
  | c :: rest =>
    if c = '.' then
      match rest with
      | [a, p] => a.isDigit && p = '%'
      | _ => false
    else c.isDigit && rateTail rest

/-- Anchored matcher for `[0-9]+\.[0-9]%`: an extraction rate rendered with
exactly one decimal place and a trailing percent sign. -/
def matchesRatePattern (s : String) : Bool :=
  match s.data with
  | [] => false
  | c :: rest => c.isDigit && rateTail rest

/-- A normalized map: attribute name to normalized value, in insertion order
(Python dict semantics; keys unique). -/
abbrev NMap := List (String × NormalizedValue)

/-- The entries a summary/validator treats as numeric: status `"extracted"`
and a present `numeric_value` (the filter in `_create_summary` and
`_validate_data_consistency`). -/
def numericEntries (m : NMap) : List (String × ℚ) :=
  m.filterMap fun p =>
    match p.2.numeric_value with
    | some q => if p.2.status = "extracted" then some (p.1, q) else none
    | none => none

/-- Stable insertion (descending by value) used to model Python's stable
`list.sort(key=value, reverse=True)`: an element is placed before the first
strictly smaller value, hence after any earlier equal value. -/
def insertDesc (x : String × ℚ) : List (String × ℚ) → List (String × ℚ)
  | [] => [x]
  | y :: ys => if y.2 ≤ x.2 then x :: y :: ys else y :: insertDesc x ys

/-- Stable descending sort by numeric value. -/
def sortDesc : List (String × ℚ) → List (String × ℚ)
  | [] => []
  | x :: xs => insertDesc x (sortDesc xs)

/-- The nine canonical attribute labels of `_extract_key_metrics`. -/
def keyMappings : List (String × String) :=
  [("Total Insured Value", "total_insured_value"),
   ("Quoted Amount", "quoted_amount"),
   ("Limit Amount", "limit_amount"),
   ("Limit per occurrence", "limit_per_occurrence"),
   ("Attachment Point", "attachment_point"),
   ("Annual Premium", "annual_premium"),
   ("100 % Annual Premium", "full_annual_premium"),
   ("Premium due", "premium_due"),
   ("100% layer premium w/o terrorism", "layer_premium_no_terrorism")]

/-- A key-metric entry: `{value, formatted}`. -/
structure KeyMetric where
  value : Option ℚ
  formatted : Option String
deriving DecidableEq

/-- `JSONFormatter._extract_key_metrics`. -/
def extractKeyMetrics (m : NMap) : List (String × KeyMetric) :=
  keyMappings.filterMap fun p =>
    match m.lookup p.1 with
    | some d => if d.status = "extracted" then some (p.2, ⟨d.numeric_value, d.formatted_value⟩) else none
    | none => none

/-- The summary record built by `_create_summary`. -/
structure Summary where
  total_attributes_processed : Nat
  successful_extractions : Nat
  extraction_rate : String
  top_values : List (String × ℚ)
  key_insurance_metrics : List (String × KeyMetric)
deriving DecidableEq

/-- `JSONFormatter._create_summary`. -/
def createSummary (m : NMap) : Summary :=
  { total_attributes_processed := m.length
    successful_extractions := (numericEntries m).length
    extraction_rate :=
      if 0 < m.length then
        String.mk (fixed1Data (((numericEntries m).length : ℚ) / (m.length : ℚ) * 100)) ++ "%"
      else "0%"
    top_values := (sortDesc (numericEntries m)).take 5
    key_insurance_metrics := extractKeyMetrics m }

/-- A `consistency_checks` entry of the validator. -/
structure ConsistencyCheck where
  check : String
  status : String
  message : String
deriving DecidableEq

/-- The validator's result record. -/
structure ValidationResult where
  status : String
  warnings : List String
  errors : List String
  consistency_checks : List ConsistencyCheck
deriving DecidableEq

/-- The consistent-check entry of Rule A (Quoted Amount vs Limit Amount). -/
def qlCheck : ConsistencyCheck :=
  ⟨"Quoted Amount vs Limit Amount", "consistent", "Quoted Amount equals Limit Amount as expected"⟩

/-- The consistent-check entry of Rule B (Premium due vs Annual Premium). -/
def pdCheck : ConsistencyCheck :=
  ⟨"Premium due vs Annual Premium", "consistent", "Premium due equals Annual Premium"⟩

/-- Rule A's warning string. -/
def qlWarn (q l : ℚ) : String :=
  "Quoted Amount ($" ++ (commaFixed2 q ++ (") differs from Limit Amount ($" ++ (commaFixed2 l ++ ")")))

/-- Rule B's warning string. -/
def pdWarn (p a : ℚ) : String :=
  "Premium due ($" ++ (commaFixed2 p ++ (") differs from Annual Premium ($" ++ (commaFixed2 a ++ ")")))

/-- Rule C's low-range warning string. -/
def tivLowWarn (t : ℚ) : String := "Total Insured Value seems low: $" ++ commaFixed2 t

/-- Rule C's high-range warning string. -/
def tivHighWarn (t : ℚ) : String := "Total Insured Value seems very high: $" ++ commaFixed2 t

/-- Rule A of `_validate_data_consistency` (checks produced, warnings produced). -/
def ruleAResult (vals : List (String × ℚ)) : List ConsistencyCheck × List String :=
  match vals.lookup "Quoted Amount", vals.lookup "Limit Amount" with
  | some q, some l => if q = l then ([qlCheck], []) else ([], [qlWarn q l])
  | _, _ => ([], [])

/-- Rule B of `_validate_data_consistency`. -/
def ruleBResult (vals : List (String × ℚ)) : List ConsistencyCheck × List String :=
  match vals.lookup "Premium due", vals.lookup "Annual Premium" with
  | some p, some a => if p = a then ([pdCheck], []) else ([], [pdWarn p a])
  | _, _ => ([], [])

/-- Rule C of `_validate_data_consistency` (range check: warnings only,
no consistency-check entries). -/
def ruleCWarns (vals : List (String × ℚ)) : List String :=
  match vals.lookup "Total Insured Value" with
  | some t =>
    if t < 1000000 then [tivLowWarn t]
    else if 100000000000 < t then [tivHighWarn t]
    else []
  | none => []

/-- The final status assignment of `_validate_data_consistency`:
`failed` on errors, else `warnings` on warnings, else `passed`. -/
def finalStatus (errors warnings : List String) : String :=
  if errors ≠ [] then "failed" else if warnings ≠ [] then "warnings" else "passed"

/-- `JSONFormatter._validate_data_consistency`. The body of the Python
function is total on well-typed normalized maps, so the `except` branch
(status `"error"`) has no counterpart in the embedding and `errors` stays
empty: no rule appends to it. -/
def validate (m : NMap) : ValidationResult :=
  { status := finalStatus []
      ((ruleAResult (numericEntries m)).2 ++ (ruleBResult (numericEntries m)).2 ++ ruleCWarns (numericEntries m))
    warnings :=
      (ruleAResult (numericEntries m)).2 ++ (ruleBResult (numericEntries m)).2 ++ ruleCWarns (numericEntries m)
    errors := []
    consistency_checks := (ruleAResult (numericEntries m)).1 ++ (ruleBResult (numericEntries m)).1 }

/-- The top-level report built by `format_extraction_results` (the
extraction timestamp, an I/O effect, is not modelled). -/
structure FormattedReport where
  success : Bool
  pdf_filename : String
  excel_filename : String
  extracted_data : NMap
  summary : Summary
  validation : ValidationResult

/-- `JSONFormatter.format_extraction_results` on the success path: normalize
every value, then summarize and validate. -/
def formatExtractionResults (raw : List (String × Option String)) (pdf excel : String) : FormattedReport :=
  { success := true
    pdf_filename := pdf
    excel_filename := excel
    extracted_data := raw.map fun p => (p.1, formatValue p.2)
    summary := createSummary (raw.map fun p => (p.1, formatValue p.2))
    validation := validate (raw.map fun p => (p.1, formatValue p.2)) }

/-- An input to `create_comparison_report`: a previously produced report,
viewed as a loosely-typed dict that may lack `extracted_data` or a
`source_files.pdf_filename` entry. -/
structure Extraction where
  extracted_data : Option NMap
  pdf_filename : Option String

/-- One element of an `attribute_comparison` list. -/
structure CompEntry where
  document_index : Nat
  document_name : String
  value : Option ℚ
  formatted : Option String
  status : String
deriving DecidableEq

/-- The comparison report of `create_comparison_report` (the timestamp and
the reserved, unpopulated `summary_statistics` field are not modelled). -/
structure ComparisonReport where
  total_documents : Nat
  attribute_comparison : List (String × List CompEntry)
deriving DecidableEq

/-- Result of `create_comparison_report`: either the error dict
`{"error": msg}` or a comparison report. -/
inductive CompResult where
  | error (msg : String)
  | ok (r : ComparisonReport)
deriving DecidableEq

/-- Whether a report contains the attribute in its `extracted_data`. -/
def hasAttr (e : Extraction) (attr : String) : Bool :=
  match e.extracted_data with
  | some d => (d.lookup attr).isSome
  | none => false

/-- The per-attribute loop body of `create_comparison_report`: one entry per
input report that contains the attribute, in input (index) order, with the
`document_{i}` fallback name. -/
def attrData (attr : String) (exts : List Extraction) : List CompEntry :=
  exts.enum.filterMap fun p =>
    match p.2.extracted_data with
    | some d =>
      match d.lookup attr with
      | some nv =>
        some { document_index := p.1
               document_name := p.2.pdf_filename.getD ("document_" ++ toString p.1)
               value := nv.numeric_value
               formatted := nv.formatted_value
               status := nv.status }
      | none => none
    | none => none

/-- The union (first-encounter order, duplicates removed) of all attribute
names across the reports' `extracted_data`. -/
def allAttributes (exts : List Extraction) : List String :=
  (exts.flatMap fun e => (e.extracted_data.getD []).map Prod.fst).dedup

/-- `JSONFormatter.create_comparison_report`. -/
def createComparisonReport (exts : List Extraction) : CompResult :=
  if exts.length < 2 then .error "Need at least 2 extractions for comparison"
  else .ok { total_documents := exts.length
             attribute_comparison := (allAttributes exts).map fun a => (a, attrData a exts) }

/-- C2: for every raw value that is the empty string, absent (`None`), or one
of the sentinels `"NOT_FOUND"`/`"ERROR"`, `_format_value` returns status
`"not_found"` with `formatted_value`, `numeric_value` and `currency` all
empty and `raw_value` preserved verbatim. These four cases are exactly the
values satisfying the guard `not value or value in ["NOT_FOUND","ERROR",None]`. -/
theorem claim_C2_not_found :
    formatValue none =
      { raw_value := none, formatted_value := none, numeric_value := none,
        currency := none, status := "not_found" } ∧
    formatValue (some "") =
      { raw_value := some "", formatted_value := none, numeric_value := none,
        currency := none, status := "not_found" } ∧
    formatValue (some "NOT_FOUND") =
      { raw_value := some "NOT_FOUND", formatted_value := none, numeric_value := none,
        currency := none, status := "not_found" } ∧
    formatValue (some "ERROR") =
      { raw_value := some "ERROR", formatted_value := none, numeric_value := none,
        currency := none, status := "not_found" } := by
  refine ⟨rfl, ?_, ?_, ?_⟩ <;> decide

/-- C3 invariant, pointwise form on the output of `_format_value`. -/
theorem formatValue_inv (v : Option String) :
    ((formatValue v).numeric_value ≠ none ↔ (formatValue v).status = "extracted") ∧
    ((formatValue v).status = "extracted" → (formatValue v).currency = some "USD") ∧
    ((formatValue v).status ≠ "extracted" → (formatValue v).currency = none) := by
  match v with
  | none => refine ⟨?_, ?_, ?_⟩ <;> decide
  | some s =>
    by_cases h : s = "" ∨ s = "NOT_FOUND" ∨ s = "ERROR"
    · simp only [formatValue, if_pos h]
      refine ⟨?_, ?_, ?_⟩ <;> decide
    · cases hp : parsePyFloat (cleanValue s) with
      | none =>
        simp only [formatValue, if_neg h, hp]
        refine ⟨?_, ?_, ?_⟩ <;> decide
      | some f =>
        simp only [formatValue, if_neg h, hp]
        refine ⟨?_, ?_, ?_⟩ <;> simp

/-- C10 status totality, pointwise form. -/
theorem formatValue_status_cases (v : Option String) :
    (formatValue v).status = "not_found" ∨ (formatValue v).status = "extracted" ∨
      (formatValue v).status = "extracted_non_numeric" := by
  match v with
  | none => decide
  | some s =>
    by_cases h : s = "" ∨ s = "NOT_FOUND" ∨ s = "ERROR"
    · simp only [formatValue, if_pos h]
      decide
    · cases hp : parsePyFloat (cleanValue s) with
      | none => simp only [formatValue, if_neg h, hp]; decide
      | some f => simp only [formatValue, if_neg h, hp]; decide

/-- C3: for every NormalizedValue produced by `_format_value` — and hence for
every entry of `extracted_data` in a report built by
`format_extraction_results` — `numeric_value` is set if and only if `status`
equals `"extracted"`; under the same condition `currency` equals `"USD"`,
and it is empty otherwise. -/
theorem claim_C3_numeric_iff_extracted :
    (∀ v : Option String,
      ((formatValue v).numeric_value ≠ none ↔ (formatValue v).status = "extracted") ∧
      ((formatValue v).status = "extracted" → (formatValue v).currency = some "USD") ∧
      ((formatValue v).status ≠ "extracted" → (formatValue v).currency = none)) ∧
    (∀ (raw : List (String × Option String)) (pdf excel : String),
      ∀ p ∈ (formatExtractionResults raw pdf excel).extracted_data,
        (p.2.numeric_value ≠ none ↔ p.2.status = "extracted") ∧
        (p.2.status = "extracted" → p.2.currency = some "USD") ∧
        (p.2.status ≠ "extracted" → p.2.currency = none)) := by
  refine ⟨formatValue_inv, ?_⟩
  intro raw pdf excel p hp
  simp only [formatExtractionResults, List.mem_map] at hp
  obtain ⟨q, _, rfl⟩ := hp
  exact formatValue_inv q.2

/-- Witness for C3 at a concrete report entry. -/
theorem claim_C3_witness :
    ((formatValue (some "5")).numeric_value ≠ none ↔ (formatValue (some "5")).status = "extracted") ∧
    ((formatValue (some "5")).status = "extracted" → (formatValue (some "5")).currency = some "USD") ∧
    ((formatValue (some "5")).status ≠ "extracted" → (formatValue (some "5")).currency = none) :=
  claim_C3_numeric_iff_extracted.2 [("a", some "5")] "doc.pdf" "attrs.xlsx"
    ("a", formatValue (some "5")) (by decide)

/-- C10: for every raw value (string or absent), `_format_value` never
returns status `"format_error"`: its body is total, so the catch-all error
branch is unreachable and the status is always one of `"not_found"`,
`"extracted"`, `"extracted_non_numeric"`. -/
theorem claim_C10_no_format_error (v : Option String) :
    ((formatValue v).status = "not_found" ∨ (formatValue v).status = "extracted" ∨
      (formatValue v).status = "extracted_non_numeric") ∧
    (formatValue v).status ≠ "format_error" := by
  have h := formatValue_status_cases v
  refine ⟨h, ?_⟩
  rcases h with h | h | h <;> rw [h] <;> decide

/-- C8: the validator's final status is `"failed"` if any errors were
recorded, else `"warnings"` if any warnings were recorded, else `"passed"`.
(In the embedding the validation body is a total function — no rule records
errors and no exception can escape to the caller, so the `except` branch
producing status `"error"` is unreachable.) -/
theorem claim_C8_final_status (m : NMap) :
    (validate m).status =
      (if (validate m).errors ≠ [] then "failed"
       else if (validate m).warnings ≠ [] then "warnings"
       else "passed") := by
  rfl

/-- Digit characters below ten render as decimal digit characters. -/
theorem isDigit_digitChar (d : Nat) (h : d < 10) : (Nat.digitChar d).isDigit = true := by
  interval_cases d <;> decide

/-- Every character produced by `natDigitsFuel` is a decimal digit. -/
theorem natDigitsFuel_digits :
    ∀ fuel n : Nat, ∀ c ∈ natDigitsFuel fuel n, c.isDigit = true := by
  intro fuel
  induction fuel with
  | zero => intro n c hc; simp [natDigitsFuel] at hc
  | succ f ih =>
    intro n c hc
    by_cases h : n < 10
    · simp only [natDigitsFuel, if_pos h, List.mem_singleton] at hc
      subst hc
      exact isDigit_digitChar n h
    · simp only [natDigitsFuel, if_neg h, List.mem_append, List.mem_singleton] at hc
      rcases hc with hc | hc
      · exact ih (n / 10) c hc
      · subst hc
        exact isDigit_digitChar (n % 10) (Nat.mod_lt n (by norm_num))

/-- Every character produced by `natDigits` is a decimal digit. -/
theorem natDigits_digits (n : Nat) : ∀ c ∈ natDigits n, c.isDigit = true :=
  natDigitsFuel_digits (n + 1) n

/-- `natDigits` never returns the empty list. -/
theorem natDigits_ne_nil (n : Nat) : natDigits n ≠ [] := by
  rw [natDigits]
  show natDigitsFuel (n + 1) n ≠ []
  by_cases h : n < 10
  · simp [natDigitsFuel, if_pos h]
  · simp [natDigitsFuel, if_neg h]

/-- Characters produced by `groupFuel` come from the input or are commas. -/
theorem groupFuel_mem :
    ∀ fuel : Nat, ∀ l : List Char, ∀ c ∈ groupFuel fuel l, c ∈ l ∨ c = ',' := by
  intro fuel
  induction fuel with
  | zero => intro l c hc; simp only [groupFuel] at hc; exact Or.inl hc
  | succ f ih =>
    intro l c hc
    match l with
    | [] => simp only [groupFuel] at hc; exact Or.inl hc
    | [a] => simp only [groupFuel] at hc; exact Or.inl hc
    | [a, b] => simp only [groupFuel] at hc; exact Or.inl hc
    | [a, b, d] => simp only [groupFuel] at hc; exact Or.inl hc
    | a :: b :: d :: r :: rest =>
      simp only [groupFuel, List.mem_cons] at hc
      rcases hc with rfl | rfl | rfl | rfl | hc
      · exact Or.inl (by simp)
      · exact Or.inl (by simp)
      · exact Or.inl (by simp)
      · exact Or.inr rfl
      · rcases ih (r :: rest) c hc with h | h
        · exact Or.inl (by simp [List.mem_cons] at h ⊢; tauto)
        · exact Or.inr h

/-- `groupFuel` preserves nonemptiness. -/
theorem groupFuel_ne_nil :
    ∀ fuel : Nat, ∀ l : List Char, l ≠ [] → groupFuel fuel l ≠ [] := by
  intro fuel l hl
  match fuel, l with
  | 0, l => simpa [groupFuel] using hl
  | f + 1, [] => exact absurd rfl hl
  | f + 1, [a] => simp [groupFuel]
  | f + 1, [a, b] => simp [groupFuel]
  | f + 1, [a, b, d] => simp [groupFuel]
  | f + 1, a :: b :: d :: r :: rest => simp [groupFuel]

/-- Characters of `groupComma` output come from the digit list or are commas. -/
theorem groupComma_mem (ds : List Char) : ∀ c ∈ groupComma ds, c ∈ ds ∨ c = ',' := by
  intro c hc
  rw [groupComma, List.mem_reverse] at hc
  rcases groupFuel_mem ds.length ds.reverse c hc with h | h
  · exact Or.inl (List.mem_reverse.mp h)
  · exact Or.inr h

/-- `groupComma` preserves nonemptiness. -/
theorem groupComma_ne_nil (ds : List Char) (h : ds ≠ []) : groupComma ds ≠ [] := by
  rw [groupComma]
  intro hcon
  rw [List.reverse_eq_nil_iff] at hcon
  exact groupFuel_ne_nil ds.length ds.reverse (by simpa using h) hcon

/-- Shape of the `:,.2f` character data: a nonempty digit/comma group, a dot,
then exactly two digit characters. -/
theorem fixed2Data_shape (x : ℚ) :
    ∃ g a b, fixed2Data x = g ++ '.' :: [a, b] ∧ g ≠ [] ∧
      (∀ c ∈ g, isDigitComma c = true) ∧ a.isDigit = true ∧ b.isDigit = true := by
  refine ⟨groupComma (natDigits ((rhe (x.num * 100) (x.den : ℤ)).toNat / 100)),
    Nat.digitChar ((rhe (x.num * 100) (x.den : ℤ)).toNat % 100 / 10),
    Nat.digitChar ((rhe (x.num * 100) (x.den : ℤ)).toNat % 10), rfl,
    groupComma_ne_nil _ (natDigits_ne_nil _), ?_, ?_, ?_⟩
  · intro c hc
    rcases groupComma_mem _ c hc with h | h
    · simp [isDigitComma, natDigits_digits _ c h]
    · simp [isDigitComma, h]
  · refine isDigit_digitChar _ ?_
    have := Nat.mod_lt (rhe (x.num * 100) (x.den : ℤ)).toNat (show 0 < 100 by norm_num)
    omega
  · exact isDigit_digitChar _ (Nat.mod_lt _ (by norm_num))

/-- A digit-or-comma character is not a dot. -/
theorem isDigitComma_ne_dot (c : Char) (h : isDigitComma c = true) : ¬(c = '.') := by
  intro hcon
  subst hcon
  simp [isDigitComma] at h

/-- The matcher continuation accepts digit/comma characters followed by a dot
and two digits. -/
theorem tailPat_append (g : List Char) (hg : ∀ c ∈ g, isDigitComma c = true)
    (a b : Char) (ha : a.isDigit = true) (hb : b.isDigit = true) :
    tailPat (g ++ '.' :: [a, b]) = true := by
  induction g with
  | nil => simp [tailPat, ha, hb]
  | cons c g' ih =>
    have hc : isDigitComma c = true := hg c (by simp)
    have hg' : ∀ d ∈ g', isDigitComma d = true := fun d hd => hg d (by simp [hd])
    simp only [List.cons_append, tailPat, if_neg (isDigitComma_ne_dot c hc)]
    simp [hc, ih hg']

/-- The body matcher accepts a nonempty digit/comma group followed by a dot
and two digits. -/
theorem bodyPat_append (g : List Char) (hne : g ≠ []) (hg : ∀ c ∈ g, isDigitComma c = true)
    (a b : Char) (ha : a.isDigit = true) (hb : b.isDigit = true) :
    bodyPat (g ++ '.' :: [a, b]) = true := by
  match g with
  | [] => exact absurd rfl hne
  | c :: g' =>
    have hc : isDigitComma c = true := hg c (by simp)
    have hg' : ∀ d ∈ g', isDigitComma d = true := fun d hd => hg d (by simp [hd])
    simp only [List.cons_append, bodyPat]
    simp [hc, tailPat_append g' hg' a b ha hb]

/-- Every string produced by `formatCurrency` matches
`-?\$[0-9,]+\.[0-9]{2}`. -/
theorem matchesMoneyPattern_formatCurrency (q : ℚ) :
    matchesMoneyPattern (formatCurrency q) = true := by
  by_cases h : 0 ≤ q
  · have hdata : (formatCurrency q).data = '$' :: fixed2Data q := by
      rw [formatCurrency, if_pos h, commaFixed2, if_neg (not_lt.mpr h), String.data_append]
      rfl
    obtain ⟨g, a, b, hdef, hne, hg, ha, hb⟩ := fixed2Data_shape q
    simp only [matchesMoneyPattern, hdata]
    simp only [show ¬('$' = '-') by decide, if_neg, dollarPat]
    rw [hdef]
    exact bodyPat_append g hne hg a b ha hb
  · have hq : q < 0 := lt_of_not_ge h
    have hdata : (formatCurrency q).data = '-' :: '$' :: fixed2Data (-q) := by
      rw [formatCurrency, if_neg h, commaFixed2, if_neg (by linarith : ¬(-q < 0)), String.data_append]
      rfl
    obtain ⟨g, a, b, hdef, hne, hg, ha, hb⟩ := fixed2Data_shape (-q)
    simp only [matchesMoneyPattern, hdata]
    simp only [if_pos rfl, dollarPat]
    rw [hdef]
    exact bodyPat_append g hne hg a b ha hb

/-- A plain decimal numeral of 310 digits, beyond the double overflow bound:
Python's `float` parses it to `inf`. -/
def overflowNumeral : String := "1000000000000000000000000000000000000000000000000000000000000000000000000000000000000000000000000000000000000000000000000000000000000000000000000000000000000000000000000000000000000000000000000000000000000000000000000000000000000000000000000000000000000000000000000000000000000000000000000000000000000000000000"

/-- C1 counterexample: the original claim fails in the program (and in the
faithful embedding) at raw values that parse as signed decimals but round to
a negative zero or to infinity. Raw `"-0"` parses (to `-0.0`), yet since
`-0.0 >= 0` holds, line 70 renders `"$-0.00"`, which does not match
`-?\$[0-9,]+\.[0-9]{2}`; a 310-digit numeral parses to `inf` and renders
`"$inf"`, which does not match either. Both are status `"extracted"`. -/
theorem claim_C1_counterexample :
    parsePyFloat (cleanValue "-0") = some PyFloat.negZero ∧
    (formatValue (some "-0")).status = "extracted" ∧
    (formatValue (some "-0")).formatted_value = some "$-0.00" ∧
    matchesMoneyPattern "$-0.00" = false ∧
    parsePyFloat (cleanValue overflowNumeral) = some PyFloat.posInf ∧
    (formatValue (some overflowNumeral)).status = "extracted" ∧
    (formatValue (some overflowNumeral)).formatted_value = some "$inf" ∧
    matchesMoneyPattern "$inf" = false := by
  refine ⟨by decide, by decide, by decide, by decide, ?_, ?_, ?_, by decide⟩ <;> decide

/-- C1 (amended): for every raw string value whose cleaned form (after
stripping `$`, `,`, `USD`, `US` in that order and surrounding whitespace)
parses as a signed decimal number that `float` keeps finite — magnitude
below the overflow bound and not a negative zero — `_format_value` returns
`numeric_value` equal to the parsed number `q` exactly, `currency` `"USD"`,
`status` `"extracted"`, and a `formatted_value` matching
`-?\$[0-9,]+\.[0-9]{2}` (leading `$`, thousands separators, exactly two
decimals, and a leading `-` before the `$` for negatives). The excluded
cases render `"$-0.00"`, `"$inf"` or `"-$inf"` (see the counterexample). -/
theorem claim_C1_extracted (v : String) (q : ℚ)
    (hp : parsePyFloat (cleanValue v) = some (PyFloat.finite q)) :
    formatValue (some v) =
      { raw_value := some v, formatted_value := some (formatCurrency q),
        numeric_value := some q, currency := some "USD", status := "extracted" } ∧
    matchesMoneyPattern (formatCurrency q) = true := by
  have hne : ¬(v = "" ∨ v = "NOT_FOUND" ∨ v = "ERROR") := by
    rintro (rfl | rfl | rfl)
    · rw [(by decide : parsePyFloat (cleanValue "") = none)] at hp
      exact Option.noConfusion hp
    · rw [(by decide : parsePyFloat (cleanValue "NOT_FOUND") = none)] at hp
      exact Option.noConfusion hp
    · rw [(by decide : parsePyFloat (cleanValue "ERROR") = none)] at hp
      exact Option.noConfusion hp
  constructor
  · simp only [formatValue, if_neg hne, hp]
    rfl
  · exact matchesMoneyPattern_formatCurrency q

/-- Witness for the amended C1 at the specification's example
`"$1,234,567.00"` (whose magnitude is far below the overflow bound). -/
theorem claim_C1_witness :
    formatValue (some "$1,234,567.00") =
      { raw_value := some "$1,234,567.00", formatted_value := some (formatCurrency 1234567),
        numeric_value := some 1234567, currency := some "USD", status := "extracted" } ∧
    matchesMoneyPattern (formatCurrency 1234567) = true ∧
    formatCurrency 1234567 = "$1,234,567.00" :=
  ⟨(claim_C1_extracted "$1,234,567.00" 1234567 (by decide)).1,
   (claim_C1_extracted "$1,234,567.00" 1234567 (by decide)).2, by decide⟩

/-- `insertDesc` permutes: the result contains the inserted element plus the
original list. -/
theorem insertDesc_perm (x : String × ℚ) (l : List (String × ℚ)) :
    List.Perm (insertDesc x l) (x :: l) := by
  induction l with
  | nil => exact List.Perm.refl _
  | cons y ys ih =>
    rw [insertDesc]
    split
    · exact List.Perm.refl _
    · exact (List.Perm.cons y ih).trans (List.Perm.swap x y ys)

/-- `sortDesc` is a permutation of its input. -/
theorem sortDesc_perm (l : List (String × ℚ)) : List.Perm (sortDesc l) l := by
  induction l with
  | nil => exact List.Perm.refl _
  | cons x xs ih => exact (insertDesc_perm x (sortDesc xs)).trans (List.Perm.cons x ih)

/-- Membership in `insertDesc`. -/
theorem mem_insertDesc (a x : String × ℚ) (l : List (String × ℚ)) :
    a ∈ insertDesc x l ↔ a = x ∨ a ∈ l := by
  rw [(insertDesc_perm x l).mem_iff, List.mem_cons]

/-- `insertDesc` preserves descending sortedness. -/
theorem pairwise_insertDesc (x : String × ℚ) (l : List (String × ℚ))
    (h : l.Pairwise (fun a b => b.2 ≤ a.2)) :
    (insertDesc x l).Pairwise (fun a b => b.2 ≤ a.2) := by
  induction l with
  | nil => simp [insertDesc]
  | cons y ys ih =>
    rw [List.pairwise_cons] at h
    rw [insertDesc]
    split
    · refine List.Pairwise.cons ?_ (List.pairwise_cons.mpr h)
      intro a ha
      rcases List.mem_cons.mp ha with rfl | ha
      · assumption
      · exact le_trans (h.1 a ha) (by assumption)
    · refine List.Pairwise.cons ?_ (ih h.2)
      intro a ha
      rcases (mem_insertDesc a x ys).mp ha with rfl | ha
      · exact le_of_lt (lt_of_not_ge (by assumption))
      · exact h.1 a ha

/-- `sortDesc` sorts descending by numeric value. -/
theorem sortDesc_pairwise (l : List (String × ℚ)) :
    (sortDesc l).Pairwise (fun a b => b.2 ≤ a.2) := by
  induction l with
  | nil => simp [sortDesc]
  | cons x xs ih => exact pairwise_insertDesc x (sortDesc xs) ih

/-- Inserting an element whose value equals `v` puts it after every earlier
element of value `v` (stability, value-equal case). -/
theorem filter_insertDesc_of_eq (x : String × ℚ) (l : List (String × ℚ)) (v : ℚ)
    (hx : x.2 = v) :
    (insertDesc x l).filter (fun p => decide (p.2 = v)) =
      x :: l.filter (fun p => decide (p.2 = v)) := by
  induction l with
  | nil => simp [insertDesc, List.filter, hx]
  | cons y ys ih =>
    rw [insertDesc]
    split
    · simp [List.filter_cons, hx]
    · have hy : ¬(y.2 = v) := by
        intro hcon
        exact (by assumption : ¬ y.2 ≤ x.2) (le_of_eq (by rw [hcon, hx]))
      simp [List.filter_cons, hy, ih]

/-- Inserting an element whose value differs from `v` leaves the
`v`-valued subsequence unchanged (stability, value-different case). -/
theorem filter_insertDesc_of_ne (x : String × ℚ) (l : List (String × ℚ)) (v : ℚ)
    (hx : ¬(x.2 = v)) :
    (insertDesc x l).filter (fun p => decide (p.2 = v)) =
      l.filter (fun p => decide (p.2 = v)) := by
  induction l with
  | nil => simp [insertDesc, List.filter, hx]
  | cons y ys ih =>
    rw [insertDesc]
    split
    · simp [List.filter_cons, hx]
    · simp [List.filter_cons, ih]

/-- Stability of `sortDesc`: for every value `v`, the subsequence of entries
with that exact value keeps its original (encounter) order. -/
theorem sortDesc_filter (l : List (String × ℚ)) (v : ℚ) :
    (sortDesc l).filter (fun p => decide (p.2 = v)) =
      l.filter (fun p => decide (p.2 = v)) := by
  induction l with
  | nil => rfl
  | cons x xs ih =>
    rw [sortDesc]
    by_cases hx : x.2 = v
    · rw [filter_insertDesc_of_eq x (sortDesc xs) v hx, ih, List.filter_cons,
        if_pos (by simpa using hx)]
    · rw [filter_insertDesc_of_ne x (sortDesc xs) v hx, ih, List.filter_cons,
        if_neg (by simpa using hx)]

/-- C5: the summary's `top_values` is exactly the first five of the stable
descending sort (by numeric value) of the entries with status `"extracted"`
and a present numeric value: at most five entries, sorted descending with a
stable sort (equal values keep encounter order), drawn from `numericEntries`. -/
theorem claim_C5_top_values (m : NMap) :
    (createSummary m).top_values = (sortDesc (numericEntries m)).take 5 ∧
    (createSummary m).top_values.length ≤ 5 ∧
    List.Perm (sortDesc (numericEntries m)) (numericEntries m) ∧
    (sortDesc (numericEntries m)).Pairwise (fun a b => b.2 ≤ a.2) ∧
    (∀ v : ℚ, (sortDesc (numericEntries m)).filter (fun p => decide (p.2 = v)) =
      (numericEntries m).filter (fun p => decide (p.2 = v))) := by
  refine ⟨rfl, ?_, sortDesc_perm _, sortDesc_pairwise _, fun v => sortDesc_filter _ v⟩
  exact List.length_take_le 5 _

/-- `rhe a b` is the round-half-even integer of `a / b` (for `b > 0`): it is
within half a unit of the exact quotient, and at an exact half it is even. -/
theorem rhe_spec (a b : ℤ) (hb : 0 < b) :
    2 * |a - rhe a b * b| ≤ b ∧ (2 * |a - rhe a b * b| = b → rhe a b % 2 = 0) := by
  have hr0 : 0 ≤ a % b := Int.emod_nonneg a (ne_of_gt hb)
  have hrb : a % b < b := Int.emod_lt_of_pos a hb
  have ha : b * (a / b) + a % b = a := Int.ediv_add_emod a b
  rw [rhe]
  split
  · rw [show a - a / b * b = a % b by linarith, abs_of_nonneg hr0]
    constructor
    · linarith
    · intro h
      linarith
  · split
    · rw [show a - (a / b + 1) * b = a % b - b by ring_nf; linarith, abs_of_nonpos (by linarith)]
      constructor
      · linarith
      · intro h
        linarith
    · have htie : 2 * (a % b) = b := by omega
      split
      · rw [show a - a / b * b = a % b by linarith, abs_of_nonneg hr0]
        exact ⟨by linarith, fun _ => by assumption⟩
      · rw [show a - (a / b + 1) * b = a % b - b by ring_nf; linarith, abs_of_nonpos (by linarith)]
        refine ⟨by linarith, fun _ => ?_⟩
        omega

/-- A decimal digit character is not a dot. -/
theorem isDigit_ne_dot (c : Char) (h : c.isDigit = true) : ¬(c = '.') := by
  intro hcon
  subst hcon
  simp at h

/-- The rate matcher continuation accepts digits followed by a dot, one digit
and the percent sign. -/
theorem rateTail_append (g : List Char) (hg : ∀ c ∈ g, c.isDigit = true)
    (a : Char) (ha : a.isDigit = true) :
    rateTail (g ++ '.' :: [a, '%']) = true := by
  induction g with
  | nil => simp [rateTail, ha]
  | cons c g' ih =>
    have hc : c.isDigit = true := hg c (by simp)
    have hg' : ∀ d ∈ g', d.isDigit = true := fun d hd => hg d (by simp [hd])
    simp only [List.cons_append, rateTail, if_neg (isDigit_ne_dot c hc)]
    simp [hc, ih hg']

/-- A nonnegative rational rendered by `fixed1Data` followed by `%` matches
`[0-9]+\.[0-9]%`. -/
theorem matchesRatePattern_rate (x : ℚ) (hx : 0 ≤ x) :
    matchesRatePattern (String.mk (fixed1Data x) ++ "%") = true := by
  have hdata : (String.mk (fixed1Data x) ++ "%").data = fixed1Data x ++ ['%'] := by
    rw [String.data_append]
  have hpos : fixed1Data x = posFixed1 x := by
    rw [fixed1Data, if_neg (not_lt.mpr hx)]
  rw [posFixed1] at hpos
  cases hnd : natDigits ((rhe (x.num * 10) (x.den : ℤ)).toNat / 10) with
  | nil => exact absurd hnd (natDigits_ne_nil _)
  | cons c g' =>
    have hdig : ∀ d ∈ c :: g', d.isDigit = true := by
      rw [← hnd]
      exact natDigits_digits _
    have hda : (String.mk (fixed1Data x) ++ "%").data =
        c :: (g' ++ '.' :: [Nat.digitChar ((rhe (x.num * 10) (x.den : ℤ)).toNat % 10), '%']) := by
      rw [hdata, hpos, hnd]
      simp
    simp only [matchesRatePattern, hda]
    refine (Bool.and_eq_true _ _).mpr ⟨hdig c (by simp), ?_⟩
    exact rateTail_append g' (fun d hd => hdig d (by simp [hd])) _
      (isDigit_digitChar _ (Nat.mod_lt _ (by norm_num)))

/-- C4: `_create_summary` never divides by zero: on an empty map the
extraction rate is the literal `"0%"`; otherwise it is the exact percentage
`successful / total * 100` rendered to one decimal (round half-even, per
`rhe_spec`) with a trailing percent sign, matching `[0-9]+\.[0-9]%`, where
`successful` counts entries with status `"extracted"` and a present numeric
value and `total` counts all entries. -/
theorem claim_C4_extraction_rate (m : NMap) :
    (m = [] → (createSummary m).extraction_rate = "0%") ∧
    (m ≠ [] →
      (createSummary m).extraction_rate =
        String.mk (fixed1Data (((numericEntries m).length : ℚ) / (m.length : ℚ) * 100)) ++ "%" ∧
      matchesRatePattern (createSummary m).extraction_rate = true) := by
  constructor
  · rintro rfl
    rfl
  · intro h
    have hpos : 0 < m.length := List.length_pos.mpr h
    have hrate : (createSummary m).extraction_rate =
        String.mk (fixed1Data (((numericEntries m).length : ℚ) / (m.length : ℚ) * 100)) ++ "%" := by
      simp only [createSummary, if_pos hpos]
    refine ⟨hrate, ?_⟩
    rw [hrate]
    refine matchesRatePattern_rate _ ?_
    have h1 : (0 : ℚ) ≤ ((numericEntries m).length : ℚ) / (m.length : ℚ) :=
      div_nonneg (by positivity) (by positivity)
    positivity

/-- A concrete extracted entry used by witnesses. -/
def nvFive : NormalizedValue :=
  ⟨some "5", some "$5.00", some 5, some "USD", "extracted"⟩

/-- A concrete one-entry normalized map used by witnesses. -/
def mapFive : NMap := [("A", nvFive)]

/-- Witness for C4 on a one-entry map. -/
theorem claim_C4_witness :
    (createSummary mapFive).extraction_rate =
      String.mk (fixed1Data (((numericEntries mapFive).length : ℚ) / (mapFive.length : ℚ) * 100)) ++ "%" ∧
    matchesRatePattern (createSummary mapFive).extraction_rate = true :=
  (claim_C4_extraction_rate mapFive).2 (by decide)

/-- Projection: the validator's warnings are Rule A's, then Rule B's, then
Rule C's, in source order. -/
theorem validate_warnings_def (m : NMap) :
    (validate m).warnings =
      (ruleAResult (numericEntries m)).2 ++ (ruleBResult (numericEntries m)).2 ++
        ruleCWarns (numericEntries m) := rfl

/-- Projection: the validator's consistency checks are Rule A's then Rule B's. -/
theorem validate_checks_def (m : NMap) :
    (validate m).consistency_checks =
      (ruleAResult (numericEntries m)).1 ++ (ruleBResult (numericEntries m)).1 := rfl

/-- Strings with distinct first characters are distinct. -/
theorem ne_of_head {s t : String} {c d : Char} (hs : s.data.head? = some c)
    (ht : t.data.head? = some d) (hcd : ¬(c = d)) : ¬(s = t) := by
  intro h
  rw [h] at hs
  rw [hs] at ht
  exact hcd (Option.some.inj ht)

/-- Strings with distinct characters at index 26 are distinct. -/
theorem ne_of_idx26 {s t : String} {c d : Char} (hs : s.data[26]? = some c)
    (ht : t.data[26]? = some d) (hcd : ¬(c = d)) : ¬(s = t) := by
  intro h
  rw [h] at hs
  rw [hs] at ht
  exact hcd (Option.some.inj ht)

/-- Rule A warnings start with `Q`. -/
theorem head_qlWarn (q l : ℚ) : (qlWarn q l).data.head? = some 'Q' := rfl

/-- Rule B warnings start with `P`. -/
theorem head_pdWarn (p a : ℚ) : (pdWarn p a).data.head? = some 'P' := rfl

/-- Rule C low warnings start with `T`. -/
theorem head_tivLowWarn (t : ℚ) : (tivLowWarn t).data.head? = some 'T' := rfl

/-- Rule C high warnings start with `T`. -/
theorem head_tivHighWarn (t : ℚ) : (tivHighWarn t).data.head? = some 'T' := rfl

/-- Rule C low warnings read `l` at index 26 (after `Total Insured Value seems `). -/
theorem idx26_tivLowWarn (t : ℚ) : (tivLowWarn t).data[26]? = some 'l' := rfl

/-- Rule C high warnings read `v` at index 26. -/
theorem idx26_tivHighWarn (t : ℚ) : (tivHighWarn t).data[26]? = some 'v' := rfl

/-- Every Rule A warning is a `qlWarn`. -/
theorem ruleA_warn_shape (vals : List (String × ℚ)) :
    ∀ w ∈ (ruleAResult vals).2, ∃ q l, w = qlWarn q l := by
  intro w hw
  rcases h1 : vals.lookup "Quoted Amount" with _ | q
  · simp [ruleAResult, h1] at hw
  · rcases h2 : vals.lookup "Limit Amount" with _ | l
    · simp [ruleAResult, h1, h2] at hw
    · by_cases he : q = l
      · simp [ruleAResult, h1, h2, he] at hw
      · simp only [ruleAResult, h1, h2, if_neg he, List.mem_singleton] at hw
        exact ⟨q, l, hw⟩

/-- Every Rule A check entry is `qlCheck`. -/
theorem ruleA_check_shape (vals : List (String × ℚ)) :
    ∀ c ∈ (ruleAResult vals).1, c = qlCheck := by
  intro c hc
  rcases h1 : vals.lookup "Quoted Amount" with _ | q
  · simp [ruleAResult, h1] at hc
  · rcases h2 : vals.lookup "Limit Amount" with _ | l
    · simp [ruleAResult, h1, h2] at hc
    · by_cases he : q = l
      · simpa [ruleAResult, h1, h2, he] using hc
      · simp [ruleAResult, h1, h2, he] at hc

/-- Every Rule B warning is a `pdWarn`. -/
theorem ruleB_warn_shape (vals : List (String × ℚ)) :
    ∀ w ∈ (ruleBResult vals).2, ∃ p a, w = pdWarn p a := by
  intro w hw
  rcases h1 : vals.lookup "Premium due" with _ | p
  · simp [ruleBResult, h1] at hw
  · rcases h2 : vals.lookup "Annual Premium" with _ | a
    · simp [ruleBResult, h1, h2] at hw
    · by_cases he : p = a
      · simp [ruleBResult, h1, h2, he] at hw
      · simp only [ruleBResult, h1, h2, if_neg he, List.mem_singleton] at hw
        exact ⟨p, a, hw⟩

/-- Every Rule B check entry is `pdCheck`. -/
theorem ruleB_check_shape (vals : List (String × ℚ)) :
    ∀ c ∈ (ruleBResult vals).1, c = pdCheck := by
  intro c hc
  rcases h1 : vals.lookup "Premium due" with _ | p
  · simp [ruleBResult, h1] at hc
  · rcases h2 : vals.lookup "Annual Premium" with _ | a
    · simp [ruleBResult, h1, h2] at hc
    · by_cases he : p = a
      · simpa [ruleBResult, h1, h2, he] using hc
      · simp [ruleBResult, h1, h2, he] at hc

/-- Every Rule C warning is a `tivLowWarn` or a `tivHighWarn`. -/
theorem ruleC_warn_shape (vals : List (String × ℚ)) :
    ∀ w ∈ ruleCWarns vals, ∃ t, w = tivLowWarn t ∨ w = tivHighWarn t := by
  intro w hw
  rcases h1 : vals.lookup "Total Insured Value" with _ | t
  · simp [ruleCWarns, h1] at hw
  · by_cases hlo : t < 1000000
    · simp only [ruleCWarns, h1, if_pos hlo, List.mem_singleton] at hw
      exact ⟨t, Or.inl hw⟩
    · by_cases hhi : (100000000000 : ℚ) < t
      · simp only [ruleCWarns, h1, if_neg hlo, if_pos hhi, List.mem_singleton] at hw
        exact ⟨t, Or.inr hw⟩
      · simp [ruleCWarns, h1, hlo, hhi] at hw

/-- A Rule A warning never appears among Rule B warnings. -/
theorem qlWarn_not_mem_ruleB (vals : List (String × ℚ)) (q l : ℚ) :
    qlWarn q l ∉ (ruleBResult vals).2 := by
  intro hmem
  obtain ⟨p, a, h⟩ := ruleB_warn_shape vals _ hmem
  exact ne_of_head (head_qlWarn q l) (head_pdWarn p a) (by decide) h

/-- A Rule A warning never appears among Rule C warnings. -/
theorem qlWarn_not_mem_ruleC (vals : List (String × ℚ)) (q l : ℚ) :
    qlWarn q l ∉ ruleCWarns vals := by
  intro hmem
  obtain ⟨t, h | h⟩ := ruleC_warn_shape vals _ hmem
  · exact ne_of_head (head_qlWarn q l) (head_tivLowWarn t) (by decide) h
  · exact ne_of_head (head_qlWarn q l) (head_tivHighWarn t) (by decide) h

/-- A Rule C low warning never appears among Rule A warnings. -/
theorem tivLow_not_mem_ruleA (vals : List (String × ℚ)) (t : ℚ) :
    tivLowWarn t ∉ (ruleAResult vals).2 := by
  intro hmem
  obtain ⟨q, l, h⟩ := ruleA_warn_shape vals _ hmem
  exact ne_of_head (head_tivLowWarn t) (head_qlWarn q l) (by decide) h

/-- A Rule C low warning never appears among Rule B warnings. -/
theorem tivLow_not_mem_ruleB (vals : List (String × ℚ)) (t : ℚ) :
    tivLowWarn t ∉ (ruleBResult vals).2 := by
  intro hmem
  obtain ⟨p, a, h⟩ := ruleB_warn_shape vals _ hmem
  exact ne_of_head (head_tivLowWarn t) (head_pdWarn p a) (by decide) h

/-- A Rule C high warning never appears among Rule A warnings. -/
theorem tivHigh_not_mem_ruleA (vals : List (String × ℚ)) (t : ℚ) :
    tivHighWarn t ∉ (ruleAResult vals).2 := by
  intro hmem
  obtain ⟨q, l, h⟩ := ruleA_warn_shape vals _ hmem
  exact ne_of_head (head_tivHighWarn t) (head_qlWarn q l) (by decide) h

/-- A Rule C high warning never appears among Rule B warnings. -/
theorem tivHigh_not_mem_ruleB (vals : List (String × ℚ)) (t : ℚ) :
    tivHighWarn t ∉ (ruleBResult vals).2 := by
  intro hmem
  obtain ⟨p, a, h⟩ := ruleB_warn_shape vals _ hmem
  exact ne_of_head (head_tivHighWarn t) (head_pdWarn p a) (by decide) h

/-- Low-range and high-range warnings are distinct strings. -/
theorem tivLow_ne_tivHigh (t u : ℚ) : ¬(tivLowWarn t = tivHighWarn u) :=
  ne_of_idx26 (idx26_tivLowWarn t) (idx26_tivHighWarn u) (by decide)

/-- High-range and low-range warnings are distinct strings. -/
theorem tivHigh_ne_tivLow (t u : ℚ) : ¬(tivHighWarn t = tivLowWarn u) :=
  ne_of_idx26 (idx26_tivHighWarn t) (idx26_tivLowWarn u) (by decide)

/-- C6: when both `"Quoted Amount"` and `"Limit Amount"` are extracted with
numeric values: if equal, the validator appends exactly one `consistent`
check entry for the rule and no Rule A warning; if unequal, it appends
exactly one Rule A warning (naming both formatted amounts), no check entry
for the rule, no error, and — absent Rule B/Rule C warnings — the overall
status is `"warnings"`. -/
theorem claim_C6_quoted_vs_limit (m : NMap) (q l : ℚ)
    (hq : (numericEntries m).lookup "Quoted Amount" = some q)
    (hl : (numericEntries m).lookup "Limit Amount" = some l) :
    (q = l →
      (validate m).consistency_checks.count qlCheck = 1 ∧
      (validate m).warnings.count (qlWarn q l) = 0) ∧
    (¬(q = l) →
      (validate m).warnings.count (qlWarn q l) = 1 ∧
      (validate m).consistency_checks.count qlCheck = 0 ∧
      (validate m).errors = [] ∧
      ((ruleBResult (numericEntries m)).2 = [] → ruleCWarns (numericEntries m) = [] →
        (validate m).status = "warnings")) := by
  have hBcheck : (ruleBResult (numericEntries m)).1.count qlCheck = 0 :=
    List.count_eq_zero.mpr
      (fun hmem => (by decide : ¬(qlCheck = pdCheck)) (ruleB_check_shape _ _ hmem))
  have hBwarn : (ruleBResult (numericEntries m)).2.count (qlWarn q l) = 0 :=
    List.count_eq_zero.mpr (qlWarn_not_mem_ruleB _ q l)
  have hCwarn : (ruleCWarns (numericEntries m)).count (qlWarn q l) = 0 :=
    List.count_eq_zero.mpr (qlWarn_not_mem_ruleC _ q l)
  constructor
  · intro he
    have hA : ruleAResult (numericEntries m) = ([qlCheck], []) := by
      simp [ruleAResult, hq, hl, he]
    constructor
    · rw [validate_checks_def, hA, List.count_append, hBcheck]
      simp [List.count_cons]
    · rw [validate_warnings_def, hA, List.count_append, List.count_append, hBwarn, hCwarn]
      simp
  · intro hne
    have hA : ruleAResult (numericEntries m) = ([], [qlWarn q l]) := by
      simp [ruleAResult, hq, hl, hne]
    refine ⟨?_, ?_, rfl, ?_⟩
    · rw [validate_warnings_def, hA, List.count_append, List.count_append, hBwarn, hCwarn]
      simp [List.count_cons]
    · rw [validate_checks_def, hA, List.count_append, hBcheck]
      simp
    · intro hB hC
      have hst : (validate m).status =
          finalStatus []
            ((ruleAResult (numericEntries m)).2 ++ (ruleBResult (numericEntries m)).2 ++
              ruleCWarns (numericEntries m)) := rfl
      rw [hst, hA, hB, hC]
      simp [finalStatus]

/-- C7: when `"Total Insured Value"` is extracted with numeric value `t`, the
validator appends exactly one low-range warning iff `t < 1,000,000`, exactly
one high-range warning iff `t > 100,000,000,000` (boundaries in range, no
warning), and never a consistency-check entry for this rule (every check
entry belongs to Rule A or Rule B). -/
theorem claim_C7_tiv_range (m : NMap) (t : ℚ)
    (h : (numericEntries m).lookup "Total Insured Value" = some t) :
    ((validate m).warnings.count (tivLowWarn t) = if t < 1000000 then 1 else 0) ∧
    ((validate m).warnings.count (tivHighWarn t) = if 100000000000 < t then 1 else 0) ∧
    (∀ c ∈ (validate m).consistency_checks, c = qlCheck ∨ c = pdCheck) := by
  have hAlow : (ruleAResult (numericEntries m)).2.count (tivLowWarn t) = 0 :=
    List.count_eq_zero.mpr (tivLow_not_mem_ruleA _ t)
  have hBlow : (ruleBResult (numericEntries m)).2.count (tivLowWarn t) = 0 :=
    List.count_eq_zero.mpr (tivLow_not_mem_ruleB _ t)
  have hAhigh : (ruleAResult (numericEntries m)).2.count (tivHighWarn t) = 0 :=
    List.count_eq_zero.mpr (tivHigh_not_mem_ruleA _ t)
  have hBhigh : (ruleBResult (numericEntries m)).2.count (tivHighWarn t) = 0 :=
    List.count_eq_zero.mpr (tivHigh_not_mem_ruleB _ t)
  refine ⟨?_, ?_, ?_⟩
  · rw [validate_warnings_def, List.count_append, List.count_append, hAlow, hBlow]
    by_cases hlo : t < 1000000
    · rw [if_pos hlo, show ruleCWarns (numericEntries m) = [tivLowWarn t] by
        simp [ruleCWarns, h, hlo]]
      simp [List.count_cons]
    · rw [if_neg hlo]
      by_cases hhi : (100000000000 : ℚ) < t
      · rw [show ruleCWarns (numericEntries m) = [tivHighWarn t] by
          simp [ruleCWarns, h, hlo, hhi]]
        simp [List.count_eq_zero.mpr
          (fun hm => tivLow_ne_tivHigh t t (List.mem_singleton.mp hm))]
      · rw [show ruleCWarns (numericEntries m) = [] by simp [ruleCWarns, h, hlo, hhi]]
        rfl
  · rw [validate_warnings_def, List.count_append, List.count_append, hAhigh, hBhigh]
    by_cases hlo : t < 1000000
    · rw [if_neg (by intro hcon; linarith), show ruleCWarns (numericEntries m) = [tivLowWarn t] by
        simp [ruleCWarns, h, hlo]]
      simp [List.count_eq_zero.mpr
        (fun hm => tivHigh_ne_tivLow t t (List.mem_singleton.mp hm))]
    · by_cases hhi : (100000000000 : ℚ) < t
      · rw [if_pos hhi, show ruleCWarns (numericEntries m) = [tivHighWarn t] by
          simp [ruleCWarns, h, hlo, hhi]]
        simp [List.count_cons]
      · rw [if_neg hhi, show ruleCWarns (numericEntries m) = [] by
          simp [ruleCWarns, h, hlo, hhi]]
        rfl
  · rw [validate_checks_def]
    intro c hc
    rcases List.mem_append.mp hc with hc | hc
    · exact Or.inl (ruleA_check_shape _ c hc)
    · exact Or.inr (ruleB_check_shape _ c hc)

/-- Concrete entries for the C6 witness (spec scenario). -/
def nvQuoted : NormalizedValue :=
  ⟨some "5000000", some "$5,000,000.00", some 5000000, some "USD", "extracted"⟩

/-- Concrete Limit Amount entry for the C6 witness. -/
def nvLimit : NormalizedValue :=
  ⟨some "4900000", some "$4,900,000.00", some 4900000, some "USD", "extracted"⟩

/-- The C6 witness map: Quoted Amount 5,000,000 vs Limit Amount 4,900,000. -/
def mapQL : NMap := [("Quoted Amount", nvQuoted), ("Limit Amount", nvLimit)]

/-- Witness for C6 at the specification's unequal-amount scenario. -/
theorem claim_C6_witness :
    (validate mapQL).warnings.count (qlWarn 5000000 4900000) = 1 ∧
    (validate mapQL).consistency_checks.count qlCheck = 0 ∧
    (validate mapQL).errors = [] ∧
    (validate mapQL).status = "warnings" := by
  have h := (claim_C6_quoted_vs_limit mapQL 5000000 4900000 (by decide) (by decide)).2 (by decide)
  exact ⟨h.1, h.2.1, h.2.2.1, h.2.2.2 (by decide) (by decide)⟩

/-- Concrete Total Insured Value entry for the C7 witness. -/
def nvTiv : NormalizedValue :=
  ⟨some "500000", some "$500,000.00", some 500000, some "USD", "extracted"⟩

/-- The C7 witness map: Total Insured Value 500,000 (below the range). -/
def mapTiv : NMap := [("Total Insured Value", nvTiv)]

/-- Witness for C7 at the specification's low-value scenario. -/
theorem claim_C7_witness :
    (validate mapTiv).warnings.count (tivLowWarn 500000) = 1 ∧
    (validate mapTiv).warnings.count (tivHighWarn 500000) = 0 ∧
    (validate mapTiv).consistency_checks = [] := by
  have h := claim_C7_tiv_range mapTiv 500000 (by decide)
  refine ⟨?_, ?_, by decide⟩
  · rw [h.1]
    decide
  · rw [h.2.1]
    decide

/-- Mapping the produced index over a filterMap recovers the filtered input
indices, whenever the production function preserves the index. -/
theorem filterMap_map_index (f : Nat × Extraction → Option CompEntry)
    (hf : ∀ p c, f p = some c → c.document_index = p.1) :
    ∀ L : List (Nat × Extraction),
      (L.filterMap f).map (fun c => c.document_index) =
        (L.filter fun p => (f p).isSome).map Prod.fst := by
  intro L
  induction L with
  | nil => rfl
  | cons p L ih =>
    rw [List.filterMap_cons, List.filter_cons]
    cases hp : f p with
    | none => simp [hp, ih]
    | some c => simp [hp, ih, hf p c hp]

/-- The per-attribute production function of `attrData` succeeds exactly on
reports containing the attribute, and preserves the document index. -/
theorem attrData_indices (attr : String) (exts : List Extraction) :
    (attrData attr exts).map (fun c => c.document_index) =
      (exts.enum.filter fun p => hasAttr p.2 attr).map Prod.fst := by
  rw [attrData]
  rw [filterMap_map_index _ ?hidx exts.enum]
  case hidx =>
    intro p c hc
    rcases hd : p.2.extracted_data with _ | d
    · rw [hd] at hc
      exact Option.noConfusion hc
    · simp only [hd] at hc
      rcases hnv : d.lookup attr with _ | nv
      · rw [hnv] at hc
        exact Option.noConfusion hc
      · rw [hnv] at hc
        rw [← Option.some.inj hc]
  congr 1
  refine List.filter_congr ?_
  intro p _
  rcases hd : p.2.extracted_data with _ | d
  · simp [hd, hasAttr]
  · rcases hnv : d.lookup attr with _ | nv
    · simp [hd, hnv, hasAttr]
    · simp [hd, hnv, hasAttr]

/-- The document indices of an `attrData` list are strictly increasing:
entries appear in ascending input document order. -/
theorem attrData_indices_sorted (attr : String) (exts : List Extraction) :
    ((attrData attr exts).map fun c => c.document_index).Pairwise (· < ·) := by
  rw [attrData_indices]
  have h1 : List.Sublist (exts.enum.filter fun p => hasAttr p.2 attr) exts.enum :=
    List.filter_sublist _
  have h2 : List.Sublist ((exts.enum.filter fun p => hasAttr p.2 attr).map Prod.fst)
      (exts.enum.map Prod.fst) := List.Sublist.map Prod.fst h1
  rw [List.enum_map_fst] at h2
  exact List.Pairwise.sublist h2 (List.pairwise_lt_range exts.length)

/-- Every entry of `attrData` carries the source report's fields: its index
points at a report whose `extracted_data` contains the attribute, and value,
formatted, status and (fallback) document name are copied from it. -/
theorem attrData_fields (attr : String) (exts : List Extraction) :
    ∀ c ∈ attrData attr exts,
      ∃ e d nv, exts[c.document_index]? = some e ∧ e.extracted_data = some d ∧
        d.lookup attr = some nv ∧ c.value = nv.numeric_value ∧
        c.formatted = nv.formatted_value ∧ c.status = nv.status ∧
        c.document_name = e.pdf_filename.getD ("document_" ++ toString c.document_index) := by
  intro c hc
  rw [attrData] at hc
  obtain ⟨p, hp, hf⟩ := List.mem_filterMap.mp hc
  rcases hd : p.2.extracted_data with _ | d
  · rw [hd] at hf
    exact Option.noConfusion hf
  · simp only [hd] at hf
    rcases hnv : d.lookup attr with _ | nv
    · rw [hnv] at hf
      exact Option.noConfusion hf
    · rw [hnv] at hf
      rw [← Option.some.inj hf]
      exact ⟨p.2, d, nv, List.mem_enum_iff_getElem?.mp hp, hd, hnv, rfl, rfl, rfl, rfl⟩

/-- Membership in the attribute union: an attribute occurs iff some report's
`extracted_data` contains it. -/
theorem allAttributes_mem_iff (exts : List Extraction) (attr : String) :
    attr ∈ allAttributes exts ↔
      ∃ e ∈ exts, ∃ d, e.extracted_data = some d ∧ attr ∈ d.map Prod.fst := by
  rw [allAttributes, List.mem_dedup, List.mem_flatMap]
  constructor
  · rintro ⟨e, he, hm⟩
    rcases hd : e.extracted_data with _ | d
    · rw [hd] at hm
      simp at hm
    · rw [hd] at hm
      exact ⟨e, he, d, hd, by simpa using hm⟩
  · rintro ⟨e, he, d, hd, hm⟩
    refine ⟨e, he, ?_⟩
    rw [hd]
    simpa using hm

/-- C9: with fewer than two reports, `create_comparison_report` returns the
descriptive error value (no comparison, no exception); with two or more it
returns `total_documents` equal to the number of inputs and an
`attribute_comparison` with exactly one entry per attribute present in at
least one report, each entry listing — in ascending input document order —
one element per report containing that attribute, carrying the report's
index, its document name (falling back to `document_{i}`), and the
attribute's value/formatted/status fields. -/
theorem claim_C9_comparison (exts : List Extraction) :
    (exts.length < 2 →
      createComparisonReport exts = .error "Need at least 2 extractions for comparison") ∧
    (2 ≤ exts.length → ∃ r, createComparisonReport exts = .ok r ∧
      r.total_documents = exts.length ∧
      (∀ attr entry, (attr, entry) ∈ r.attribute_comparison → entry = attrData attr exts) ∧
      (∀ attr, (∃ entry, (attr, entry) ∈ r.attribute_comparison) ↔
        ∃ e ∈ exts, ∃ d, e.extracted_data = some d ∧ attr ∈ d.map Prod.fst) ∧
      (r.attribute_comparison.map Prod.fst).Nodup ∧
      (∀ attr, ((attrData attr exts).map fun c => c.document_index) =
          (exts.enum.filter fun p => hasAttr p.2 attr).map Prod.fst ∧
        ((attrData attr exts).map fun c => c.document_index).Pairwise (· < ·)) ∧
      (∀ attr, ∀ c ∈ attrData attr exts,
        ∃ e d nv, exts[c.document_index]? = some e ∧ e.extracted_data = some d ∧
          d.lookup attr = some nv ∧ c.value = nv.numeric_value ∧
          c.formatted = nv.formatted_value ∧ c.status = nv.status ∧
          c.document_name = e.pdf_filename.getD ("document_" ++ toString c.document_index))) := by
  constructor
  · intro h
    rw [createComparisonReport, if_pos h]
  · intro h
    refine ⟨{ total_documents := exts.length,
              attribute_comparison := (allAttributes exts).map fun a => (a, attrData a exts) },
      ?_, rfl, ?_, ?_, ?_, ?_, ?_⟩
    · rw [createComparisonReport, if_neg (not_lt.mpr h)]
    · intro attr entry hmem
      obtain ⟨a, _, heq⟩ := List.mem_map.mp hmem
      obtain ⟨h1, h2⟩ := Prod.mk.injEq _ _ _ _ ▸ heq
      rw [← h1, ← h2]
    · intro attr
      rw [← allAttributes_mem_iff exts attr]
      constructor
      · rintro ⟨entry, hmem⟩
        obtain ⟨a, ha, heq⟩ := List.mem_map.mp hmem
        obtain ⟨h1, _⟩ := Prod.mk.injEq _ _ _ _ ▸ heq
        rw [← h1]
        exact ha
      · intro ha
        exact ⟨attrData attr exts, List.mem_map.mpr ⟨attr, ha, rfl⟩⟩
    · have hfst : ((allAttributes exts).map fun a => (a, attrData a exts)).map Prod.fst =
          allAttributes exts := by
        rw [List.map_map,
          show (Prod.fst ∘ fun a : String => (a, attrData a exts)) = id from rfl, List.map_id]
      rw [hfst]
      exact List.nodup_dedup _
    · intro attr
      exact ⟨attrData_indices attr exts, attrData_indices_sorted attr exts⟩
    · intro attr
      exact attrData_fields attr exts

/-- A first concrete report for the C9 witness. -/
def extA : Extraction := ⟨some [("A", nvFive)], some "a.pdf"⟩

/-- A second concrete report for the C9 witness. -/
def extB : Extraction := ⟨some [("A", nvFive)], some "b.pdf"⟩

/-- Witness for C9: a single report yields the error value (via the theorem),
and two concrete reports yield the expected comparison table. -/
theorem claim_C9_witness :
    createComparisonReport [extA] = .error "Need at least 2 extractions for comparison" ∧
    createComparisonReport [extA, extB] =
      .ok { total_documents := 2,
            attribute_comparison :=
              [("A", [⟨0, "a.pdf", some 5, some "$5.00", "extracted"⟩,
                      ⟨1, "b.pdf", some 5, some "$5.00", "extracted"⟩])] } :=
  ⟨(claim_C9_comparison [extA]).1 (by decide), by decide⟩
